import Mathlib

/-!
Shallow embedding of the cross-interview inconsistency detection engine of
`audio_analysis/analysis/inconsistency.py` (class `InconsistencyDetector`),
together with theorems checking the natural-language specification against it.

Modelling conventions:
* Python floats that the engine only compares and copies (similarity scores,
  segment times) are modelled as exact rationals `ℚ`.
* Python dicts are modelled as insertion-ordered association lists
  (`List (String × β)`); `dictSet` mirrors `d[k] = v` (replace in place,
  append when the key is new), `lookupD` mirrors `d[k]` / `d.get(k, dflt)`.
* External library calls are parameters of the model:
  `sentTok` stands for `nltk.sent_tokenize`, `wordTok` for
  `nltk.word_tokenize`, and `cos` for the composite
  `TfidfVectorizer.fit_transform` + `cosine_similarity` step: `cos texts`
  is `none` when `fit_transform` raises (the `try/except` in
  `_find_similar_statements`), and `some m` with `m i j` the cosine
  similarity matrix entry otherwise.
* A Python `KeyError` from a missing segment field is modelled with
  `Except String`; the `{"error": ...}` dictionary that
  `detect_inconsistencies` returns for fewer than two interviews is a
  *normal* return value, modelled by `DetectResult.errorReport`.
* The only mutation the engine performs after statement extraction is
  `stmt["interview_id"] = id` while emitting records.  Statement bases are
  therefore modelled immutably, and the `interview_id` stamps are modelled
  as a separate store `Ref → Option String` written by `stampStore`, so that
  "record as created" and "record at end of run" can be compared.
-/

namespace Detector


/-- Similarity scores (Python floats, only built and compared) as rationals. -/
abbrev Score := ℚ

/-- Splitting of a character list at every character satisfying `p`
(keeping empty pieces), the character-level core of `pySplit`. -/
def chSplit (p : Char → Bool) : List Char → List String
  | [] => [""]
  | c :: cs =>
    let r := chSplit p cs
    if p c then "" :: r
    else (String.mk (c :: (r.headD "").data)) :: r.tail

/-- Python `str.split()` with no argument: split on whitespace, dropping
empty pieces (only the token count of the result is used by the engine). -/
def pySplit (s : String) : List String :=
  (chSplit Char.isWhitespace s.data).filter (fun t => t ≠ "")

/-- Python `str.lower()` (characterwise lowering; the engine applies it to
statement texts before tokenizing). -/
def pyLower (s : String) : String := String.mk (s.data.map Char.toLower)

/-- A transcript segment as consumed by `_extract_statements_by_speaker`.
Every field the Python code reads with `segment[...]` or `segment.get(...)`
is optional: `none` models the key being absent (for `text`, also a null
value, which the code treats the same way). -/
structure Segment where
  text : Option String
  speaker : Option String
  start_time : Option ℚ
  end_time : Option ℚ
  start_timestamp : Option String
  end_timestamp : Option String
deriving Repr, DecidableEq

/-- A statement dictionary as built at `inconsistency.py:86-92`
(before any `interview_id` stamping). -/
structure Stmt where
  text : String
  start_time : ℚ
  end_time : ℚ
  start_timestamp : String
  end_timestamp : String
deriving Repr, DecidableEq, Inhabited

/-- A statement dictionary after the aggregator has stamped it with
`stmt["interview_id"] = id` (`inconsistency.py:260-261`). -/
structure StampedStmt where
  base : Stmt
  interview_id : String
deriving Repr, DecidableEq

/-- An entry of the list returned by `_detect_contradictions`. -/
structure Contradiction where
  statement1 : StampedStmt
  statement2 : StampedStmt
  similarity : Score
  contradiction_type : String
deriving Repr, DecidableEq

/-- An inconsistency record as appended at `inconsistency.py:269-288`. -/
structure Record where
  speaker : String
  interview1 : String
  interview2 : String
  statement1 : StampedStmt
  statement2 : StampedStmt
  similarity : Score
  contradiction_type : String
deriving Repr, DecidableEq

/-- The dictionary returned by `detect_inconsistencies`: either the
`{"error": ...}` dictionary of line 213, or the three-field report of
lines 296-300. -/
inductive DetectResult where
  | errorReport (msg : String)
  | report (total_inconsistencies : Nat) (contradictions : List Record)
      (similar_statements : List Record)
deriving Repr, DecidableEq

/-- Python `k in d` for an insertion-ordered dict. -/
def hasKey (d : List (String × β)) (k : String) : Bool :=
  d.any (fun p => p.1 = k)

/-- Python `d[k]` / `d.get(k, dflt)`: value of the first entry with key `k`. -/
def lookupD (d : List (String × β)) (k : String) (dflt : β) : β :=
  match d.find? (fun p => p.1 = k) with
  | some p => p.2
  | none => dflt

/-- Python `d[k] = v`: replace the value in place when the key exists,
append a new entry otherwise. -/
def dictSet (d : List (String × β)) (k : String) (v : β) : List (String × β) :=
  if hasKey d k then d.map (fun p => if p.1 = k then (k, v) else p)
  else d ++ [(k, v)]

/-- Mapping from speaker to that speaker's statement list, as built by
`_extract_statements_by_speaker`. -/
abbrev SMap := List (String × List Stmt)

/-- Lines 79-80: `if speaker not in d: d[speaker] = []`. -/
def ensureKey (d : SMap) (k : String) : SMap :=
  if hasKey d k then d else d ++ [(k, [])]

/-- Line 86: `d[speaker].append(stmt)`. -/
def appendAt (d : SMap) (k : String) (v : Stmt) : SMap :=
  d.map (fun p => if p.1 = k then (p.1, p.2 ++ [v]) else p)

/-- Processing of one segment inside the loop of
`_extract_statements_by_speaker` (lines 74-92): skip the segment when
`"text" not in segment or not segment["text"]`, otherwise create the
speaker's bucket and append every sentence with at least 3
whitespace-delimited words, reading the timing fields of the segment
(a missing timing field is a `KeyError`, raised only when some sentence
actually qualifies). -/
def extractSeg (sentTok : String → List String) (d : SMap) (seg : Segment) :
    Except String SMap :=
  match seg.text with
  | none => .ok d
  | some t =>
    if t = "" then .ok d
    else
      let sp := seg.speaker.getD "Unknown"
      (sentTok t).foldlM (fun d2 sentence =>
        if 3 ≤ (pySplit sentence).length then
          match seg.start_time, seg.end_time, seg.start_timestamp, seg.end_timestamp with
          | some st, some et, some sts, some ets =>
            .ok (appendAt d2 sp
              { text := sentence, start_time := st, end_time := et,
                start_timestamp := sts, end_timestamp := ets })
          | _, _, _, _ => .error "KeyError"
        else .ok d2) (ensureKey d sp)

/-- `_extract_statements_by_speaker` (lines 62-94). -/
def extract_statements_by_speaker (sentTok : String → List String)
    (transcript : List Segment) : Except String SMap :=
  transcript.foldlM (extractSeg sentTok) []

/-- Index pairs `(i, j)` with `i < j < n`, in the order of the nested
Python loops `for i in range(n): for j in range(i + 1, n)`. -/
def pairIdx (n : Nat) : List (Nat × Nat) :=
  (List.range n).flatMap (fun i =>
    ((List.range n).filter (fun j => i < j)).map (fun j => (i, j)))

/-- The token set of one statement text in
`_find_similar_statements_simple` (lines 146-147, 150-151):
`set(word_tokenize(text.lower())) - stop_words`. -/
def tokenSet (wordTok : String → List String) (stop : Finset String)
    (text : String) : Finset String :=
  (wordTok (pyLower text)).toFinset \ stop

/-- Jaccard similarity of two token sets (line 157). -/
def jaccard (a b : Finset String) : Score :=
  ((a ∩ b).card : ℚ) / ((a ∪ b).card : ℚ)

/-- `_find_similar_statements_simple` (lines 133-162): word-overlap
fallback.  Pairs with an empty post-stop-word token set on either side are
skipped; otherwise the pair is kept iff its Jaccard similarity reaches the
threshold. -/
def find_similar_statements_simple (wordTok : String → List String)
    (stop : Finset String) (thr : Score) (stmts : List Stmt) :
    List (Nat × Nat × Score) :=
  (pairIdx stmts.length).filterMap (fun q =>
    let wi := tokenSet wordTok stop (stmts.getD q.1 default).text
    let wj := tokenSet wordTok stop (stmts.getD q.2 default).text
    if wi = ∅ ∨ wj = ∅ then none
    else
      let sim := jaccard wi wj
      if thr ≤ sim then some (q.1, q.2, sim) else none)

/-- `_find_similar_statements` (lines 96-131): fewer than 2 statements give
an empty result; otherwise the TF-IDF/cosine step `cos` is attempted, its
failure (`none`, the `except` branch of lines 115-118) falls back to
`find_similar_statements_simple`, and its success keeps every `i < j` pair
whose matrix entry reaches the threshold. -/
def find_similar_statements (cos : List String → Option (Nat → Nat → Score))
    (wordTok : String → List String) (stop : Finset String) (thr : Score)
    (stmts : List Stmt) : List (Nat × Nat × Score) :=
  if stmts.length < 2 then []
  else
    match cos (stmts.map (fun s => s.text)) with
    | none => find_similar_statements_simple wordTok stop thr stmts
    | some m =>
      (pairIdx stmts.length).filterMap (fun q =>
        if thr ≤ m q.1 q.2 then some (q.1, q.2, m q.1 q.2) else none)

/-- The negation keyword table of `_detect_contradictions` (lines 177-182):
`negation_words.get(self.language, negation_words['en'])`. -/
def negationWords (lang : String) : List String :=
  if lang = "es" then
    ["no", "nunca", "jamás", "ni", "tampoco", "nada", "nadie", "ninguno", "ninguna"]
  else
    ["no", "not", "never", "none", "nobody", "nothing", "neither", "nor"]

/-- Lines 186-187: `any(neg in word_tokenize(text.lower()) for neg in neg_words)`. -/
def hasNeg (wordTok : String → List String) (negWords : List String)
    (text : String) : Bool :=
  negWords.any (fun neg => (wordTok (pyLower text)).contains neg)

/-- `_detect_contradictions` (lines 164-197): keep exactly the pairs whose
two statements disagree on the presence of a negation keyword, labelled
`"negation"`. -/
def detect_contradictions (wordTok : String → List String) (lang : String)
    (pairs : List (StampedStmt × StampedStmt × Score)) : List Contradiction :=
  let negWords := negationWords lang
  pairs.filterMap (fun p =>
    if hasNeg wordTok negWords p.1.base.text ≠ hasNeg wordTok negWords p.2.1.base.text then
      some { statement1 := p.1, statement2 := p.2.1, similarity := p.2.2,
             contradiction_type := "negation" }
    else none)

/-- Spec-level counterpart of `hasNeg`, used to state the classifier law:
the statement's lowercased token stream contains at least one
negation marker of the configured language. -/
def containsNegationMarker (wordTok : String → List String) (lang : String)
    (s : StampedStmt) : Prop :=
  ∃ w ∈ negationWords lang, w ∈ wordTok (pyLower s.base.text)

/-- Address of a statement inside the speaker index:
(speaker, interview id, position in that interview's statement list).
Used to model the `stmt["interview_id"] = id` writes as a store. -/
abbrev Ref := String × String × Nat

/-- The per-speaker, per-interview statement index
(`all_statements_by_speaker`, lines 216-224). -/
abbrev Index := List (String × SMap)

/-- One `stmt["interview_id"] = id` write: the store maps the written
address to the interview id component of the address (the aggregator only
ever stamps a statement of interview `id` with `id` itself). -/
def stampStore (store : Ref → Option String) (r : Ref) : Ref → Option String :=
  fun r2 => if r2 = r then some r.2.1 else store r2

/-- State of all `interview_id` fields after the whole run: all stamp
writes applied in order to the initial store (no statement dictionary has
an `interview_id` key when extraction finishes). -/
def finalStore (trace : List Ref) : Ref → Option String :=
  trace.foldl stampStore (fun _ => none)

/-- The base statement stored at address `r` in the index. -/
def stmtAt (idx : Index) (r : Ref) : Option Stmt :=
  (lookupD (lookupD idx r.1 []) r.2.1 [])[r.2.2]?

/-- Lines 246-288, for one interview pair `(id1, id2)` of one speaker:
run the matcher on `interviews[id1] + interviews[id2]`, keep the pairs
spanning the boundary `n1`, reorder so the first statement comes from
`id1`, stamp both with their interview ids, classify, and emit one record
per qualifying matched pair.  Each emitted record is returned together
with the addresses of its two statements (the targets of the two
`interview_id` writes performed for it). -/
def processPair (cos : List String → Option (Nat → Nat → Score))
    (wordTok : String → List String) (lang : String) (thr : Score)
    (stop : Finset String) (speaker id1 id2 : String) (s1 s2 : List Stmt) :
    List (Record × Ref × Ref) :=
  let combined := s1 ++ s2
  let n1 := s1.length
  (find_similar_statements cos wordTok stop thr combined).flatMap (fun t =>
    let idx1 := t.1
    let idx2 := t.2.1
    let sim := t.2.2
    if (idx1 < n1 ∧ n1 ≤ idx2) ∨ (idx2 < n1 ∧ n1 ≤ idx1) then
      let a := if n1 ≤ idx1 then idx2 else idx1
      let b := if n1 ≤ idx1 then idx1 else idx2
      let stmt1 : StampedStmt := { base := combined.getD a default, interview_id := id1 }
      let stmt2 : StampedStmt := { base := combined.getD b default, interview_id := id2 }
      let cds := detect_contradictions wordTok lang [(stmt1, stmt2, sim)]
      let recs :=
        if cds = [] then
          [{ speaker := speaker, interview1 := id1, interview2 := id2,
             statement1 := stmt1, statement2 := stmt2, similarity := sim,
             contradiction_type := "similar_statement" : Record }]
        else
          cds.map (fun c =>
            { speaker := speaker, interview1 := id1, interview2 := id2,
              statement1 := c.statement1, statement2 := c.statement2,
              similarity := sim, contradiction_type := c.contradiction_type })
      recs.map (fun r => (r, (speaker, id1, a), (speaker, id2, b - n1)))
    else [])

/-- The speaker/interview-pair loops of lines 229-288, over an already
built index: speakers appearing in fewer than 2 interviews are skipped,
and every unordered pair of that speaker's interview ids (in dict order)
is processed by `processPair`. -/
def aggregateWithRefs (cos : List String → Option (Nat → Nat → Score))
    (wordTok : String → List String) (lang : String) (thr : Score)
    (stop : Finset String) (idx : Index) : List (Record × Ref × Ref) :=
  idx.flatMap (fun p =>
    let speaker := p.1
    let interviews := p.2
    if interviews.length < 2 then []
    else
      let ids := interviews.map Prod.fst
      (pairIdx ids.length).flatMap (fun q =>
        let id1 := ids.getD q.1 ""
        let id2 := ids.getD q.2 ""
        processPair cos wordTok lang thr stop speaker id1 id2
          (lookupD interviews id1 []) (lookupD interviews id2 [])))

/-- The trace of `interview_id` writes performed while emitting `out`,
in emission order. -/
def runTrace (out : List (Record × Ref × Ref)) : List Ref :=
  out.flatMap (fun x => [x.2.1, x.2.2])

/-- Lines 216-224: run the extractor on every transcript and merge into
`all_statements_by_speaker[speaker][interview_id] = statements`. -/
def buildIndex (sentTok : String → List String)
    (transcriptions : List (String × List Segment)) : Except String Index :=
  transcriptions.foldlM (fun acc p =>
    match extract_statements_by_speaker sentTok p.2 with
    | .error e => .error e
    | .ok sbs => .ok (sbs.foldl (fun a q =>
        dictSet a q.1 (dictSet (lookupD a q.1 []) p.1 q.2)) acc)) []

/-- `detect_inconsistencies` (lines 199-300): fewer than two transcripts
give the `{"error": ...}` dictionary; otherwise extract, aggregate, and
partition the emitted records by `contradiction_type`. -/
def detect_inconsistencies (cos : List String → Option (Nat → Nat → Score))
    (sentTok wordTok : String → List String) (lang : String) (thr : Score)
    (stop : Finset String) (transcriptions : List (String × List Segment)) :
    Except String DetectResult :=
  if transcriptions.length < 2 then
    .ok (.errorReport "Need at least 2 interviews to detect inconsistencies")
  else
    match buildIndex sentTok transcriptions with
    | .error e => .error e
    | .ok idx =>
      let recs := (aggregateWithRefs cos wordTok lang thr stop idx).map Prod.fst
      .ok (.report recs.length
        (recs.filter (fun r => r.contradiction_type = "negation"))
        (recs.filter (fun r => r.contradiction_type = "similar_statement")))

/-- The stop-word setup of `__init__` (lines 44-52): Spanish stop words for
`'es'`, English for every other language value; `resource` models
`nltk.corpus.stopwords.words` and returns `none` when the corpus lookup
raises.  Result: the stop-word set together with the list of logged
warnings. -/
def initStopWords (resource : String → Option (Finset String)) (lang : String) :
    Finset String × List String :=
  match (if lang = "es" then resource "spanish" else resource "english") with
  | some s => (s, [])
  | none => (∅, ["Stopwords not available for " ++ lang ++ ", using empty set"])

/-- Default of the `language` constructor argument (`config.py:20`). -/
def config_LANGUAGE : String := "es"

/-- Default of the `similarity_threshold` constructor argument
(`config.py:26`). -/
def config_INCONSISTENCY_SIMILARITY_THRESHOLD : Score := 7 / 10

/-- Contract of §6 on one segment: the timing fields the extractor reads
are present. -/
def SegOK (seg : Segment) : Prop :=
  seg.start_time.isSome = true ∧ seg.end_time.isSome = true ∧
    seg.start_timestamp.isSome = true ∧ seg.end_timestamp.isSome = true

instance (seg : Segment) : Decidable (SegOK seg) := by
  unfold SegOK; infer_instance

deriving instance DecidableEq for Except

/-! Concrete instantiations of the external collaborators (tokenizers,
TF-IDF/cosine step, stop-word resource) and concrete inputs, used in
closed statements that evaluate the model. -/

/-- A TF-IDF/cosine step that always fails (vectorization raises). -/
def cosNone : List String → Option (Nat → Nat → Score) := fun _ => none

/-- A TF-IDF/cosine step that always succeeds with constant similarity 1. -/
def cosOne : List String → Option (Nat → Nat → Score) := fun _ => some (fun _ _ => 1)

/-- A sentence tokenizer returning the whole text as one sentence. -/
def sentIdent : String → List String := fun s => [s]

/-- A stop-word resource with both corpora available. -/
def resEx : String → Option (Finset String) :=
  fun c => if c = "spanish" then some {"el"} else some {"the"}

/-- Concrete segment: speaker `S`, three-word text, all fields present. -/
def segEx1 : Segment :=
  { text := some "a b c", speaker := some "S",
    start_time := some 0, end_time := some 2,
    start_timestamp := some "00:00", end_timestamp := some "00:02" }

/-- Concrete segment: speaker `S`, three-word text containing the English
negation marker `no`, all fields present. -/
def segEx2 : Segment :=
  { text := some "b c no", speaker := some "S",
    start_time := some 3, end_time := some 5,
    start_timestamp := some "00:03", end_timestamp := some "00:05" }

/-- The statement extracted from `segEx1`. -/
def stEx1 : Stmt :=
  { text := "a b c", start_time := 0, end_time := 2,
    start_timestamp := "00:00", end_timestamp := "00:02" }

/-- The statement extracted from `segEx2`. -/
def stEx2 : Stmt :=
  { text := "b c no", start_time := 3, end_time := 5,
    start_timestamp := "00:03", end_timestamp := "00:05" }

/-- Concrete two-interview input: one speaker, one statement each. -/
def tsEx : List (String × List Segment) := [("i1", [segEx1]), ("i2", [segEx2])]

/-- Concrete segment whose only sentence has fewer than 3 words. -/
def segShort : Segment :=
  { text := some "a b", speaker := some "S",
    start_time := none, end_time := none,
    start_timestamp := none, end_timestamp := none }

/-- The speaker index built from `tsEx`. -/
def idxEx : Index := [("S", [("i1", [stEx1]), ("i2", [stEx2])])]

/-- The single record the engine emits on `tsEx` (a negation
contradiction between the two statements). -/
def recEx : Record :=
  { speaker := "S", interview1 := "i1", interview2 := "i2",
    statement1 := { base := stEx1, interview_id := "i1" },
    statement2 := { base := stEx2, interview_id := "i2" },
    similarity := 1, contradiction_type := "negation" }

/-- The record of `recEx` with the addresses of its two statements. -/
def xEx : Record × Ref × Ref := (recEx, ("S", "i1", 0), ("S", "i2", 0))

/-- Well-formedness of the speaker index: the speaker keys are distinct and
each speaker's interview keys are distinct (always true of Python dicts;
preserved by the model's `dictSet`). -/
def IndexWF (idx : Index) : Prop :=
  (idx.map Prod.fst).Nodup ∧ ∀ p ∈ idx, (p.2.map Prod.fst).Nodup



/-! Helper lemmas about the index-pair enumeration, the matchers and the
classifier. -/

theorem mem_pairIdx {n : Nat} {q : Nat × Nat} : q ∈ pairIdx n ↔ q.1 < q.2 ∧ q.2 < n := by
  obtain ⟨i, j⟩ := q
  simp only [pairIdx, List.mem_flatMap, List.mem_map, List.mem_filter, List.mem_range]
  constructor
  · rintro ⟨a, ha, b, ⟨hb, hab⟩, he⟩
    injection he with h1 h2
    subst h1; subst h2
    exact ⟨by simpa using hab, hb⟩
  · rintro ⟨hij, hj⟩
    exact ⟨i, lt_trans hij hj, j, ⟨hj, by simpa⟩, rfl⟩

theorem hasNeg_iff {wordTok : String → List String} {lang : String} {s : StampedStmt} :
    hasNeg wordTok (negationWords lang) s.base.text = true ↔
      containsNegationMarker wordTok lang s := by
  simp [hasNeg, containsNegationMarker, List.any_eq_true, List.contains, List.elem_iff]

theorem mem_find_simple_iff {wordTok : String → List String} {stop : Finset String}
    {thr : Score} {stmts : List Stmt} {i j : Nat} {s : Score} :
    (i, j, s) ∈ find_similar_statements_simple wordTok stop thr stmts ↔
      i < j ∧ j < stmts.length ∧
      tokenSet wordTok stop (stmts.getD i default).text ≠ ∅ ∧
      tokenSet wordTok stop (stmts.getD j default).text ≠ ∅ ∧
      s = jaccard (tokenSet wordTok stop (stmts.getD i default).text)
            (tokenSet wordTok stop (stmts.getD j default).text) ∧
      thr ≤ s := by
  simp only [List.getD_eq_getElem?_getD]
  simp only [find_similar_statements_simple, List.mem_filterMap, List.getD_eq_getElem?_getD]
  constructor
  · rintro ⟨⟨a, b⟩, hq, hf⟩
    rw [mem_pairIdx] at hq
    simp at hf
    obtain ⟨⟨h1, h2⟩, hthr, rfl, rfl, rfl⟩ := hf
    exact ⟨hq.1, hq.2, h1, h2, rfl, hthr⟩
  · rintro ⟨hij, hj, h1, h2, rfl, hthr⟩
    refine ⟨(i, j), mem_pairIdx.2 ⟨hij, hj⟩, ?_⟩
    simp [h1, h2, hthr]

theorem find_simple_short {wordTok : String → List String} {stop : Finset String}
    {thr : Score} {stmts : List Stmt} (hl : stmts.length < 2) :
    find_similar_statements_simple wordTok stop thr stmts = [] := by
  rw [List.eq_nil_iff_forall_not_mem]
  rintro ⟨i, j, s⟩ h
  obtain ⟨hij, hj, -⟩ := mem_find_simple_iff.1 h
  omega

theorem mem_find_similar_primary {cos : List String → Option (Nat → Nat → Score)}
    {wordTok : String → List String} {stop : Finset String} {thr : Score}
    {stmts : List Stmt} {m : Nat → Nat → Score}
    (hm : cos (stmts.map (fun st => st.text)) = some m) {i j : Nat} {s : Score} :
    (i, j, s) ∈ find_similar_statements cos wordTok stop thr stmts ↔
      2 ≤ stmts.length ∧ i < j ∧ j < stmts.length ∧ s = m i j ∧ thr ≤ s := by
  by_cases hl : stmts.length < 2
  · rw [find_similar_statements, if_pos hl]
    simp only [List.not_mem_nil, false_iff]
    rintro ⟨h2, -⟩; omega
  · rw [find_similar_statements, if_neg hl, hm]
    simp only [List.mem_filterMap]
    constructor
    · rintro ⟨⟨a, b⟩, hq, hf⟩
      rw [mem_pairIdx] at hq
      simp at hf
      obtain ⟨hthr, rfl, rfl, rfl⟩ := hf
      exact ⟨by omega, hq.1, hq.2, rfl, hthr⟩
    · rintro ⟨-, hij, hj, rfl, hthr⟩
      exact ⟨(i, j), mem_pairIdx.2 ⟨hij, hj⟩, by simp [hthr]⟩

theorem mem_find_similar_bounds {cos : List String → Option (Nat → Nat → Score)}
    {wordTok : String → List String} {stop : Finset String} {thr : Score}
    {stmts : List Stmt} {i j : Nat} {s : Score}
    (h : (i, j, s) ∈ find_similar_statements cos wordTok stop thr stmts) :
    i < j ∧ j < stmts.length := by
  by_cases hl : stmts.length < 2
  · rw [find_similar_statements, if_pos hl] at h
    simp at h
  · rw [find_similar_statements, if_neg hl] at h
    cases hc : cos (stmts.map fun st => st.text) with
    | none =>
      rw [hc] at h
      obtain ⟨h1, h2, -⟩ := mem_find_simple_iff.1 h
      exact ⟨h1, h2⟩
    | some m =>
      rw [hc] at h
      simp only [List.mem_filterMap] at h
      obtain ⟨⟨a, b⟩, hq, hf⟩ := h
      rw [mem_pairIdx] at hq
      simp at hf
      obtain ⟨-, rfl, rfl, -⟩ := hf
      exact hq

/-- C3: the classifier labels a matched pair CONTRADICTION exactly when
exactly one of the two statements contains a negation marker of the
configured language (XOR of the two has-negation checks); the similarity
score plays no role in the decision, and the emitted entry carries type
`"negation"`. -/
theorem C3_classifier_xor (wordTok : String → List String) (lang : String)
    (s1 s2 : StampedStmt) (sim : Score) :
    (detect_contradictions wordTok lang [(s1, s2, sim)] ≠ [] ↔
      (containsNegationMarker wordTok lang s1 ↔ ¬ containsNegationMarker wordTok lang s2)) ∧
    detect_contradictions wordTok lang [(s1, s2, sim)] =
      (if hasNeg wordTok (negationWords lang) s1.base.text ≠
          hasNeg wordTok (negationWords lang) s2.base.text then
        [{ statement1 := s1, statement2 := s2, similarity := sim,
           contradiction_type := "negation" }]
      else []) := by
  have heq : detect_contradictions wordTok lang [(s1, s2, sim)] =
      (if hasNeg wordTok (negationWords lang) s1.base.text ≠
          hasNeg wordTok (negationWords lang) s2.base.text then
        [{ statement1 := s1, statement2 := s2, similarity := sim,
           contradiction_type := "negation" }]
      else []) := by
    simp only [detect_contradictions, List.filterMap]
    split <;> simp_all
  refine ⟨?_, heq⟩
  rw [heq, ← hasNeg_iff (s := s1), ← hasNeg_iff (s := s2)]
  cases h1 : hasNeg wordTok (negationWords lang) s1.base.text <;>
    cases h2 : hasNeg wordTok (negationWords lang) s2.base.text <;> simp

/-- C5: when the TF-IDF/cosine step fails (`cos` returns `none`, the
`except` branch of `_find_similar_statements`), the matcher's result is
exactly the standalone token-overlap fallback's result on the same list,
and the failure never reaches the caller (the result is an ordinary
list). -/
theorem C5_fallback_refinement (cos : List String → Option (Nat → Nat → Score))
    (wordTok : String → List String) (stop : Finset String) (thr : Score)
    (stmts : List Stmt)
    (hfail : cos (stmts.map (fun st => st.text)) = none) :
    find_similar_statements cos wordTok stop thr stmts =
      find_similar_statements_simple wordTok stop thr stmts := by
  by_cases hl : stmts.length < 2
  · rw [find_similar_statements, if_pos hl, find_simple_short hl]
  · rw [find_similar_statements, if_neg hl, hfail]

theorem C5_fallback_refinement_wit :
    cosNone ([stEx1, stEx2].map (fun st => st.text)) = none ∧
    find_similar_statements cosNone pySplit ∅ 0 [stEx1, stEx2] =
      find_similar_statements_simple pySplit ∅ 0 [stEx1, stEx2] :=
  ⟨rfl, C5_fallback_refinement cosNone pySplit ∅ 0 [stEx1, stEx2] rfl⟩

/-- C6: in both matching algorithms a pair is reported iff its score
reaches the threshold (inclusive `<=` comparison), and any list of fewer
than 2 statements yields the empty result from both without error. -/
theorem C6_threshold_rule (cos : List String → Option (Nat → Nat → Score))
    (wordTok : String → List String) (stop : Finset String) (thr : Score)
    (stmts : List Stmt) :
    (∀ m, cos (stmts.map (fun st => st.text)) = some m →
      ∀ i j s, ((i, j, s) ∈ find_similar_statements cos wordTok stop thr stmts ↔
        2 ≤ stmts.length ∧ i < j ∧ j < stmts.length ∧ s = m i j ∧ thr ≤ s)) ∧
    (∀ i j s, ((i, j, s) ∈ find_similar_statements_simple wordTok stop thr stmts ↔
        i < j ∧ j < stmts.length ∧
        tokenSet wordTok stop (stmts.getD i default).text ≠ ∅ ∧
        tokenSet wordTok stop (stmts.getD j default).text ≠ ∅ ∧
        s = jaccard (tokenSet wordTok stop (stmts.getD i default).text)
              (tokenSet wordTok stop (stmts.getD j default).text) ∧
        thr ≤ s)) ∧
    (stmts.length < 2 →
      find_similar_statements cos wordTok stop thr stmts = [] ∧
      find_similar_statements_simple wordTok stop thr stmts = []) :=
  ⟨fun _ hm _ _ _ => mem_find_similar_primary hm,
   fun _ _ _ => mem_find_simple_iff,
   fun hl => ⟨by rw [find_similar_statements, if_pos hl], find_simple_short hl⟩⟩

theorem C6_threshold_rule_wit :
    ((0, 1, (1 : Score)) ∈ find_similar_statements cosOne pySplit ∅ 0 [stEx1, stEx2]) ∧
    ((0, 1, jaccard (tokenSet pySplit ∅ stEx1.text) (tokenSet pySplit ∅ stEx2.text)) ∈
      find_similar_statements_simple pySplit ∅ 0 [stEx1, stEx2]) ∧
    find_similar_statements cosOne pySplit ∅ 0 [stEx1] = [] := by
  refine ⟨((C6_threshold_rule cosOne pySplit ∅ 0 [stEx1, stEx2]).1 (fun _ _ => 1) rfl 0 1 1).mpr
      ⟨by decide, by decide, by decide, rfl, by decide⟩,
    ((C6_threshold_rule cosOne pySplit ∅ 0 [stEx1, stEx2]).2.1 0 1 _).mpr
      ⟨by decide, by decide, by decide, by decide, rfl, ?_⟩,
    ((C6_threshold_rule cosOne pySplit ∅ 0 [stEx1]).2.2 (by decide)).1⟩
  rw [jaccard]
  positivity

/-- C7: every pair reported by the token-overlap fallback carries exactly
the Jaccard similarity of the two statements' lowercased,
stop-word-stripped token sets, and both of those token sets are nonempty
(empty-token-set pairs are omitted, not reported with score 0). -/
theorem C7_jaccard_fallback (wordTok : String → List String) (stop : Finset String)
    (thr : Score) (stmts : List Stmt) (i j : Nat) (s : Score)
    (h : (i, j, s) ∈ find_similar_statements_simple wordTok stop thr stmts) :
    s = jaccard (tokenSet wordTok stop (stmts.getD i default).text)
          (tokenSet wordTok stop (stmts.getD j default).text) ∧
    tokenSet wordTok stop (stmts.getD i default).text ≠ ∅ ∧
    tokenSet wordTok stop (stmts.getD j default).text ≠ ∅ := by
  obtain ⟨-, -, h1, h2, hs, -⟩ := mem_find_simple_iff.1 h
  exact ⟨hs, h1, h2⟩

theorem C7_jaccard_fallback_wit :
    ((0, 1, jaccard (tokenSet pySplit ∅ stEx1.text) (tokenSet pySplit ∅ stEx2.text)) ∈
      find_similar_statements_simple pySplit ∅ 0 [stEx1, stEx2]) ∧
    (jaccard (tokenSet pySplit ∅ stEx1.text) (tokenSet pySplit ∅ stEx2.text) =
      jaccard (tokenSet pySplit ∅ (([stEx1, stEx2].getD 0 default).text))
        (tokenSet pySplit ∅ (([stEx1, stEx2].getD 1 default).text)) ∧
     tokenSet pySplit ∅ (([stEx1, stEx2].getD 0 default).text) ≠ ∅ ∧
     tokenSet pySplit ∅ (([stEx1, stEx2].getD 1 default).text) ≠ ∅) := by
  have hmem : (0, 1, jaccard (tokenSet pySplit ∅ stEx1.text) (tokenSet pySplit ∅ stEx2.text)) ∈
      find_similar_statements_simple pySplit ∅ 0 [stEx1, stEx2] := by
    refine mem_find_simple_iff.mpr ⟨by decide, by decide, by decide, by decide, rfl, ?_⟩
    rw [jaccard]
    positivity
  exact ⟨hmem, C7_jaccard_fallback pySplit ∅ 0 [stEx1, stEx2] 0 1 _ hmem⟩



theorem hasKey_cons {p : String × β} {d : List (String × β)} {k : String} :
    hasKey (p :: d) k = (decide (p.1 = k) || hasKey d k) := by
  simp [hasKey]

theorem hasKey_append {d e : List (String × β)} {k : String} :
    hasKey (d ++ e) k = (hasKey d k || hasKey e k) := by
  simp [hasKey, List.any_append]

theorem hasKey_iff_mem_keys {d : List (String × β)} {k : String} :
    hasKey d k = true ↔ k ∈ d.map Prod.fst := by
  simp [hasKey, List.any_eq_true, List.mem_map]

theorem lookupD_cons_pos {p : String × β} {d : List (String × β)} {k : String} {dflt : β}
    (h : p.1 = k) : lookupD (p :: d) k dflt = p.2 := by
  rw [lookupD, List.find?_cons_of_pos _ (by simp [h])]

theorem lookupD_cons_ne {p : String × β} {d : List (String × β)} {k : String} {dflt : β}
    (h : p.1 ≠ k) : lookupD (p :: d) k dflt = lookupD d k dflt := by
  rw [lookupD, List.find?_cons_of_neg _ (by simp [h])]
  rfl

theorem lookupD_eq_dflt {d : List (String × β)} {k : String} {dflt : β}
    (h : hasKey d k = false) : lookupD d k dflt = dflt := by
  induction d with
  | nil => rfl
  | cons p d ih =>
    rw [hasKey_cons] at h
    simp only [Bool.or_eq_false_iff, decide_eq_false_iff_not] at h
    rw [lookupD_cons_ne h.1]
    exact ih h.2

theorem mem_of_hasKey {d : List (String × β)} {k : String} {dflt : β}
    (h : hasKey d k = true) : (k, lookupD d k dflt) ∈ d := by
  induction d with
  | nil => simp [hasKey] at h
  | cons p d ih =>
    by_cases hp : p.1 = k
    · rw [lookupD_cons_pos hp, ← hp]
      simp
    · rw [hasKey_cons] at h
      simp only [decide_eq_false hp, Bool.false_or] at h
      rw [lookupD_cons_ne hp]
      exact List.mem_cons_of_mem _ (ih h)

theorem lookupD_append {d e : List (String × β)} {k : String} {dflt : β} :
    lookupD (d ++ e) k dflt =
      if hasKey d k = true then lookupD d k dflt else lookupD e k dflt := by
  induction d with
  | nil => simp [hasKey]
  | cons p d ih =>
    by_cases hp : p.1 = k
    · rw [List.cons_append, lookupD_cons_pos hp, lookupD_cons_pos hp, if_pos]
      rw [hasKey_cons]
      simp [hp]
    · rw [List.cons_append, lookupD_cons_ne hp, lookupD_cons_ne hp, ih, hasKey_cons]
      simp [hp]

theorem keys_mapSet {d : List (String × β)} {k : String} {v : β} :
    ((d.map (fun p => if p.1 = k then (k, v) else p)).map Prod.fst) = d.map Prod.fst := by
  rw [List.map_map]
  apply List.map_congr_left
  intro p _
  by_cases hp : p.1 = k
  · simp [hp]
  · simp [hp]

theorem hasKey_mapSet {d : List (String × β)} {k k2 : String} {v : β} :
    hasKey (d.map (fun p => if p.1 = k then (k, v) else p)) k2 = hasKey d k2 := by
  rw [Bool.eq_iff_iff, hasKey_iff_mem_keys, hasKey_iff_mem_keys, keys_mapSet]

theorem lookupD_mapSet_self {d : List (String × β)} {k : String} {v : β} {dflt : β}
    (h : hasKey d k = true) :
    lookupD (d.map (fun p => if p.1 = k then (k, v) else p)) k dflt = v := by
  induction d with
  | nil => simp [hasKey] at h
  | cons p d ih =>
    by_cases hp : p.1 = k
    · rw [List.map_cons, if_pos hp, lookupD_cons_pos rfl]
    · rw [hasKey_cons] at h
      simp only [decide_eq_false hp, Bool.false_or] at h
      rw [List.map_cons, if_neg hp, lookupD_cons_ne hp]
      exact ih h

theorem lookupD_mapSet_ne {d : List (String × β)} {k k2 : String} {v : β} {dflt : β}
    (hne : k2 ≠ k) :
    lookupD (d.map (fun p => if p.1 = k then (k, v) else p)) k2 dflt =
      lookupD d k2 dflt := by
  induction d with
  | nil => rfl
  | cons p d ih =>
    by_cases hp : p.1 = k
    · rw [List.map_cons, if_pos hp, lookupD_cons_ne (fun hc => hne hc.symm),
        lookupD_cons_ne (fun hc => hne (hp ▸ hc).symm)]
      exact ih
    · by_cases hp2 : p.1 = k2
      · rw [List.map_cons, if_neg hp, lookupD_cons_pos hp2, lookupD_cons_pos hp2]
      · rw [List.map_cons, if_neg hp, lookupD_cons_ne hp2, lookupD_cons_ne hp2]
        exact ih

theorem lookupD_dictSet_self {d : List (String × β)} {k : String} {v : β} {dflt : β} :
    lookupD (dictSet d k v) k dflt = v := by
  rw [dictSet]
  by_cases h : hasKey d k = true
  · rw [if_pos h]
    exact lookupD_mapSet_self h
  · rw [if_neg h, lookupD_append, if_neg h, lookupD_cons_pos rfl]

theorem lookupD_dictSet_ne {d : List (String × β)} {k k2 : String} {v : β} {dflt : β}
    (hne : k2 ≠ k) : lookupD (dictSet d k v) k2 dflt = lookupD d k2 dflt := by
  rw [dictSet]
  by_cases h : hasKey d k = true
  · rw [if_pos h]
    exact lookupD_mapSet_ne hne
  · rw [if_neg h, lookupD_append]
    by_cases h2 : hasKey d k2 = true
    · rw [if_pos h2]
    · rw [if_neg h2, lookupD_cons_ne (fun hc => hne hc.symm),
        lookupD_eq_dflt (d := d) (by simpa using h2)]
      rfl

theorem hasKey_dictSet {d : List (String × β)} {k k2 : String} {v : β} :
    hasKey (dictSet d k v) k2 = (decide (k2 = k) || hasKey d k2) := by
  rw [dictSet]
  by_cases h : hasKey d k = true
  · rw [if_pos h, hasKey_mapSet]
    by_cases hk : k2 = k
    · simp [hk, h]
    · simp [hk]
  · rw [if_neg h, hasKey_append]
    have : hasKey [(k, v)] k2 = decide (k2 = k) := by
      simp [hasKey, eq_comm]
    rw [this, Bool.or_comm]

theorem nodup_keys_dictSet {d : List (String × β)} {k : String} {v : β}
    (h : (d.map Prod.fst).Nodup) : ((dictSet d k v).map Prod.fst).Nodup := by
  rw [dictSet]
  by_cases hk : hasKey d k = true
  · rw [if_pos hk, keys_mapSet]
    exact h
  · rw [if_neg hk, List.map_append]
    simp only [List.map_cons, List.map_nil]
    rw [List.nodup_append]
    refine ⟨h, List.nodup_singleton _, ?_⟩
    intro a ha hb
    simp at hb
    subst hb
    exact absurd (hasKey_iff_mem_keys.2 ha) (by simp [hk])

theorem lookupD_of_mem_nodup {d : List (String × β)} {k : String} {v : β} {dflt : β}
    (hm : (k, v) ∈ d) (hn : (d.map Prod.fst).Nodup) : lookupD d k dflt = v := by
  induction d with
  | nil => simp at hm
  | cons p d ih =>
    rw [List.map_cons, List.nodup_cons] at hn
    rcases List.mem_cons.1 hm with he | hm2
    · rw [← he, lookupD_cons_pos rfl]
    · have hp : p.1 ≠ k := by
        intro hc
        exact hn.1 (hc ▸ List.mem_map.2 ⟨(k, v), hm2, rfl⟩)
      rw [lookupD_cons_ne hp]
      exact ih hm2 hn.2



theorem foldlM_ok {σ α : Type} {f : σ → α → Except String σ} (l : List α)
    (hf : ∀ d a, a ∈ l → ∃ d2, f d a = .ok d2) :
    ∀ d : σ, ∃ d2, l.foldlM f d = .ok d2 := by
  induction l with
  | nil => exact fun d => ⟨d, rfl⟩
  | cons a l ih =>
    intro d
    obtain ⟨d2, hd2⟩ := hf d a (List.mem_cons_self a l)
    obtain ⟨d3, hd3⟩ := ih (fun d a ha => hf d a (List.mem_cons_of_mem _ ha)) d2
    exact ⟨d3, by rw [List.foldlM_cons, hd2]; simpa using hd3⟩

theorem extractSeg_ok {sentTok : String → List String} {d : SMap} {seg : Segment}
    (h : SegOK seg) : ∃ d2, extractSeg sentTok d seg = .ok d2 := by
  obtain ⟨h1, h2, h3, h4⟩ := h
  obtain ⟨st, hst⟩ := Option.isSome_iff_exists.1 h1
  obtain ⟨et, het⟩ := Option.isSome_iff_exists.1 h2
  obtain ⟨sts, hsts⟩ := Option.isSome_iff_exists.1 h3
  obtain ⟨ets, hets⟩ := Option.isSome_iff_exists.1 h4
  cases ht : seg.text with
  | none =>
    simp only [extractSeg, ht]
    exact ⟨d, rfl⟩
  | some t =>
    simp only [extractSeg, ht]
    by_cases he : t = ""
    · rw [if_pos he]
      exact ⟨d, rfl⟩
    · rw [if_neg he]
      apply foldlM_ok
      intro d2 sentence _
      by_cases hw : 3 ≤ (pySplit sentence).length
      · rw [if_pos hw, hst, het, hsts, hets]
        exact ⟨_, rfl⟩
      · rw [if_neg hw]
        exact ⟨d2, rfl⟩

theorem extract_ok {sentTok : String → List String} {transcript : List Segment}
    (h : ∀ seg ∈ transcript, SegOK seg) :
    ∃ sm, extract_statements_by_speaker sentTok transcript = .ok sm := by
  apply foldlM_ok
  intro d seg hseg
  exact extractSeg_ok (h seg hseg)



theorem buildIndex_ok {sentTok : String → List String}
    {ts : List (String × List Segment)}
    (h : ∀ p ∈ ts, ∀ seg ∈ p.2, SegOK seg) :
    ∃ idx, buildIndex sentTok ts = .ok idx := by
  apply foldlM_ok
  intro acc p hp
  obtain ⟨sm, hsm⟩ := @extract_ok sentTok p.2 (h p hp)
  exact ⟨sm.foldl (fun a q => dictSet a q.1 (dictSet (lookupD a q.1 []) p.1 q.2)) acc,
    by rw [hsm]⟩

/-- C8: under the input contract of section 6 (all timing fields present on
every segment), `detect_inconsistencies` terminates normally with a result
value: no such input makes it raise an exception. -/
theorem C8_no_exception (cos : List String → Option (Nat → Nat → Score))
    (sentTok wordTok : String → List String) (lang : String) (thr : Score)
    (stop : Finset String) (ts : List (String × List Segment))
    (h : ∀ p ∈ ts, ∀ seg ∈ p.2, SegOK seg) :
    ∃ res, detect_inconsistencies cos sentTok wordTok lang thr stop ts = .ok res := by
  by_cases hl : ts.length < 2
  · exact ⟨_, by rw [detect_inconsistencies, if_pos hl]⟩
  · obtain ⟨idx, hidx⟩ := @buildIndex_ok sentTok ts h
    refine ⟨.report ((aggregateWithRefs cos wordTok lang thr stop idx).map Prod.fst).length
      (((aggregateWithRefs cos wordTok lang thr stop idx).map Prod.fst).filter
        (fun r => r.contradiction_type = "negation"))
      (((aggregateWithRefs cos wordTok lang thr stop idx).map Prod.fst).filter
        (fun r => r.contradiction_type = "similar_statement")), ?_⟩
    rw [detect_inconsistencies, if_neg hl, hidx]

theorem C8_no_exception_wit :
    (∀ p ∈ tsEx, ∀ seg ∈ p.2, SegOK seg) ∧
    ∃ res, detect_inconsistencies cosOne sentIdent pySplit "en" 0 ∅ tsEx = .ok res :=
  ⟨by decide, C8_no_exception cosOne sentIdent pySplit "en" 0 ∅ tsEx (by decide)⟩

/-- C1 (amended): with fewer than 2 transcripts, `detect_inconsistencies`
returns, without raising, the `{"error": ...}` dictionary carrying only the
explanatory message: no count fields and no record lists are present in
that value. -/
theorem C1_insufficient_input (cos : List String → Option (Nat → Nat → Score))
    (sentTok wordTok : String → List String) (lang : String) (thr : Score)
    (stop : Finset String) (ts : List (String × List Segment))
    (h : ts.length < 2) :
    detect_inconsistencies cos sentTok wordTok lang thr stop ts =
      .ok (.errorReport "Need at least 2 interviews to detect inconsistencies") := by
  rw [detect_inconsistencies, if_pos h]

theorem C1_insufficient_input_wit :
    ([("i1", [segEx1])] : List (String × List Segment)).length < 2 ∧
    detect_inconsistencies cosOne sentIdent pySplit "en" 0 ∅ [("i1", [segEx1])] =
      .ok (.errorReport "Need at least 2 interviews to detect inconsistencies") :=
  ⟨by decide, C1_insufficient_input cosOne sentIdent pySplit "en" 0 ∅ _ (by decide)⟩

/-- C1 (counterexample): on a 1-transcript input the engine returns the
error-only dictionary, not a report with zero counts and empty lists as
the claim states. -/
theorem C1_insufficient_input_cex :
    detect_inconsistencies cosOne sentIdent pySplit "en" 0 ∅ [("i1", [segEx1])] =
      .ok (.errorReport "Need at least 2 interviews to detect inconsistencies") ∧
    detect_inconsistencies cosOne sentIdent pySplit "en" 0 ∅ [("i1", [segEx1])] ≠
      .ok (.report 0 [] []) :=
  ⟨by decide, by decide⟩

/-- C9 (amended): for every language value other than `es` — including
`en` and unrecognized codes — the engine uses the English stop-word corpus
(the empty set, with a logged warning, only when that corpus is
unavailable) and the English negation-marker list; no warning is logged
merely because the value is unrecognized. -/
theorem C9_language_default (resource : String → Option (Finset String))
    (lang : String) (h : lang ≠ "es") :
    initStopWords resource lang =
      (match resource "english" with
       | some s => (s, [])
       | none => (∅, ["Stopwords not available for " ++ lang ++ ", using empty set"])) ∧
    negationWords lang = negationWords "en" := by
  constructor
  · simp only [initStopWords, if_neg h]
  · simp [negationWords, h]

theorem C9_language_default_wit :
    ("fr" : String) ≠ "es" ∧
    (initStopWords resEx "fr" =
      (match resEx "english" with
       | some s => (s, [])
       | none => (∅, ["Stopwords not available for " ++ "fr" ++ ", using empty set"])) ∧
     negationWords "fr" = negationWords "en") :=
  ⟨by decide, C9_language_default resEx "fr" (by decide)⟩

/-- C9 (counterexample): with both stop-word corpora available, the
unrecognized language `fr` selects English stop words with NO logged
warning, while the default constructor argument (`config.LANGUAGE = 'es'`)
selects the Spanish stop-word and negation sets — both contradict the
claim that unrecognized or absent values default to English with a
warning. -/
theorem C9_language_default_cex :
    initStopWords resEx "fr" = ({"the"}, []) ∧
    negationWords "fr" = negationWords "en" ∧
    config_LANGUAGE = "es" ∧
    initStopWords resEx config_LANGUAGE = ({"el"}, []) ∧
    negationWords config_LANGUAGE ≠ negationWords "en" :=
  ⟨by decide, by decide, by decide, by decide, by decide⟩



theorem foldlM_preserve {σ α : Type} {f : σ → α → Except String σ} {P : σ → Prop}
    {l : List α} (hf : ∀ d a d2, a ∈ l → f d a = .ok d2 → P d → P d2) :
    ∀ {d d2 : σ}, l.foldlM f d = .ok d2 → P d → P d2 := by
  induction l with
  | nil =>
    intro d d2 h hp
    rw [List.foldlM_nil] at h
    injection h with h
    exact h ▸ hp
  | cons a l ih =>
    intro d d2 h hp
    rw [List.foldlM_cons] at h
    cases hfa : f d a with
    | error e =>
      rw [hfa] at h
      exact nomatch h
    | ok dm =>
      rw [hfa] at h
      exact ih (fun d a2 d3 ha => hf d a2 d3 (List.mem_cons_of_mem _ ha)) h
        (hf d a dm (List.mem_cons_self a l) hfa hp)

theorem foldlM_establish {σ α : Type} {f : σ → α → Except String σ} {P : σ → Prop}
    {l : List α} {a0 : α} (ha0 : a0 ∈ l)
    (hpres : ∀ d a d2, a ∈ l → f d a = .ok d2 → P d → P d2)
    (hest : ∀ d d2, f d a0 = .ok d2 → P d2) :
    ∀ {d d2 : σ}, l.foldlM f d = .ok d2 → P d2 := by
  induction l with
  | nil => simp at ha0
  | cons a l ih =>
    intro d d2 h
    rw [List.foldlM_cons] at h
    cases hfa : f d a with
    | error e =>
      rw [hfa] at h
      exact nomatch h
    | ok dm =>
      rw [hfa] at h
      have h2 : l.foldlM f dm = .ok d2 := h
      rcases List.mem_cons.1 ha0 with rfl | hmem
      · exact foldlM_preserve (fun d a d3 ha => hpres d a d3 (List.mem_cons_of_mem _ ha))
          h2 (hest d dm hfa)
      · exact ih hmem (fun d a2 d3 ha => hpres d a2 d3 (List.mem_cons_of_mem _ ha)) h2

theorem foldl_preserve {σ α : Type} {f : σ → α → σ} {P : σ → Prop} {l : List α}
    (hf : ∀ d a, a ∈ l → P d → P (f d a)) :
    ∀ {d : σ}, P d → P (l.foldl f d) := by
  induction l with
  | nil => intro d hp; simpa using hp
  | cons a l ih =>
    intro d hp
    rw [List.foldl_cons]
    exact ih (fun d a2 ha => hf d a2 (List.mem_cons_of_mem _ ha))
      (hf d a (List.mem_cons_self a l) hp)

theorem foldl_establish {σ α : Type} {f : σ → α → σ} {P : σ → Prop} {l : List α}
    {a0 : α} (ha0 : a0 ∈ l)
    (hpres : ∀ d a, a ∈ l → P d → P (f d a))
    (hest : ∀ d, P (f d a0)) :
    ∀ (d : σ), P (l.foldl f d) := by
  induction l with
  | nil => simp at ha0
  | cons a l ih =>
    intro d
    rw [List.foldl_cons]
    rcases List.mem_cons.1 ha0 with rfl | hmem
    · exact foldl_preserve (fun d a2 ha => hpres d a2 (List.mem_cons_of_mem _ ha)) (hest d)
    · exact ih hmem (fun d a2 ha => hpres d a2 (List.mem_cons_of_mem _ ha)) (f d a)



theorem keys_appendAt {d : SMap} {k : String} {v : Stmt} :
    (appendAt d k v).map Prod.fst = d.map Prod.fst := by
  rw [appendAt, List.map_map]
  apply List.map_congr_left
  intro p _
  by_cases hp : p.1 = k
  · simp [hp]
  · simp [hp]

theorem hasKey_appendAt {d : SMap} {k k2 : String} {v : Stmt} :
    hasKey (appendAt d k v) k2 = hasKey d k2 := by
  rw [Bool.eq_iff_iff, hasKey_iff_mem_keys, hasKey_iff_mem_keys, keys_appendAt]

theorem lookupD_appendAt_ne {d : SMap} {k k2 : String} {v : Stmt} {dflt : List Stmt}
    (hne : k2 ≠ k) : lookupD (appendAt d k v) k2 dflt = lookupD d k2 dflt := by
  induction d with
  | nil => rfl
  | cons p d ih =>
    rw [appendAt, List.map_cons]
    by_cases hp : p.1 = k
    · rw [if_pos hp,
        lookupD_cons_ne (p := (p.1, p.2 ++ [v])) (show p.1 ≠ k2 from fun hc => hne (hc ▸ hp)),
        lookupD_cons_ne (p := p) (show p.1 ≠ k2 from fun hc => hne (hc ▸ hp))]
      exact ih
    · rw [if_neg hp]
      by_cases hp2 : p.1 = k2
      · rw [lookupD_cons_pos hp2, lookupD_cons_pos hp2]
      · rw [lookupD_cons_ne hp2, lookupD_cons_ne hp2]
        exact ih

theorem hasKey_ensureKey {d : SMap} {k k2 : String} :
    hasKey (ensureKey d k) k2 = (decide (k2 = k) || hasKey d k2) := by
  rw [ensureKey]
  by_cases h : hasKey d k = true
  · rw [if_pos h]
    by_cases hk : k2 = k
    · simp [hk, h]
    · simp [hk]
  · rw [if_neg h, hasKey_append]
    have : hasKey [(k, ([] : List Stmt))] k2 = decide (k2 = k) := by
      simp [hasKey, eq_comm]
    rw [this, Bool.or_comm]

theorem lookupD_ensureKey_ne {d : SMap} {k k2 : String} {dflt : List Stmt}
    (hne : k2 ≠ k) : lookupD (ensureKey d k) k2 dflt = lookupD d k2 dflt := by
  rw [ensureKey]
  by_cases h : hasKey d k = true
  · rw [if_pos h]
  · rw [if_neg h, lookupD_append]
    by_cases h2 : hasKey d k2 = true
    · rw [if_pos h2]
    · rw [if_neg h2, lookupD_cons_ne (fun hc => hne hc.symm),
        lookupD_eq_dflt (d := d) (by simpa using h2)]
      rfl

theorem lookupD_ensureKey_nil {d : SMap} {k : String} :
    lookupD (ensureKey d k) k [] = lookupD d k [] := by
  rw [ensureKey]
  by_cases h : hasKey d k = true
  · rw [if_pos h]
  · rw [if_neg h, lookupD_append, if_neg (by simpa using h), lookupD_cons_pos rfl,
      lookupD_eq_dflt (d := d) (by simpa using h)]



theorem extractSeg_hasKey_mono {sentTok : String → List String} {d : SMap}
    {seg : Segment} {d2 : SMap} {k : String}
    (h : extractSeg sentTok d seg = .ok d2) (hk : hasKey d k = true) :
    hasKey d2 k = true := by
  cases ht : seg.text with
  | none =>
    simp only [extractSeg, ht] at h
    injection h with h
    exact h ▸ hk
  | some t =>
    simp only [extractSeg, ht] at h
    by_cases he : t = ""
    · rw [if_pos he] at h
      injection h with h
      exact h ▸ hk
    · rw [if_neg he] at h
      refine foldlM_preserve (P := fun d3 => hasKey d3 k = true) ?_ h ?_
      · intro d3 sentence d4 _ hstep hp
        by_cases hw : 3 ≤ (pySplit sentence).length
        · rw [if_pos hw] at hstep
          cases hst : seg.start_time with
          | none => rw [hst] at hstep; exact nomatch hstep
          | some st =>
            cases het : seg.end_time with
            | none => rw [hst, het] at hstep; exact nomatch hstep
            | some et =>
              cases hsts : seg.start_timestamp with
              | none => rw [hst, het, hsts] at hstep; exact nomatch hstep
              | some sts =>
                cases hets : seg.end_timestamp with
                | none => rw [hst, het, hsts, hets] at hstep; exact nomatch hstep
                | some ets =>
                  rw [hst, het, hsts, hets] at hstep
                  injection hstep with hstep
                  rw [← hstep, hasKey_appendAt]
                  exact hp
        · rw [if_neg hw] at hstep
          injection hstep with hstep
          exact hstep ▸ hp
      · show hasKey (ensureKey d (seg.speaker.getD "Unknown")) k = true
        rw [hasKey_ensureKey, hk, Bool.or_true]

theorem extractSeg_creates {sentTok : String → List String} {d : SMap}
    {seg : Segment} {d2 : SMap} {t : String}
    (ht : seg.text = some t) (hne : t ≠ "")
    (h : extractSeg sentTok d seg = .ok d2) :
    hasKey d2 (seg.speaker.getD "Unknown") = true := by
  simp only [extractSeg, ht, if_neg hne] at h
  refine foldlM_preserve (P := fun d3 => hasKey d3 (seg.speaker.getD "Unknown") = true) ?_ h ?_
  · intro d3 sentence d4 _ hstep hp
    by_cases hw : 3 ≤ (pySplit sentence).length
    · rw [if_pos hw] at hstep
      cases hst : seg.start_time with
      | none => rw [hst] at hstep; exact nomatch hstep
      | some st =>
        cases het : seg.end_time with
        | none => rw [hst, het] at hstep; exact nomatch hstep
        | some et =>
          cases hsts : seg.start_timestamp with
          | none => rw [hst, het, hsts] at hstep; exact nomatch hstep
          | some sts =>
            cases hets : seg.end_timestamp with
            | none => rw [hst, het, hsts, hets] at hstep; exact nomatch hstep
            | some ets =>
              rw [hst, het, hsts, hets] at hstep
              injection hstep with hstep
              rw [← hstep, hasKey_appendAt]
              exact hp
    · rw [if_neg hw] at hstep
      injection hstep with hstep
      exact hstep ▸ hp
  · show hasKey (ensureKey d (seg.speaker.getD "Unknown")) (seg.speaker.getD "Unknown") = true
    rw [hasKey_ensureKey]
    simp

theorem extractSeg_keeps_nil {sentTok : String → List String} {d : SMap}
    {seg : Segment} {d2 : SMap} {sp : String}
    (hshort : ∀ t, seg.text = some t → seg.speaker.getD "Unknown" = sp →
      ∀ sent ∈ sentTok t, (pySplit sent).length < 3)
    (h : extractSeg sentTok d seg = .ok d2) (hnil : lookupD d sp [] = []) :
    lookupD d2 sp [] = [] := by
  cases ht : seg.text with
  | none =>
    simp only [extractSeg, ht] at h
    injection h with h
    exact h ▸ hnil
  | some t =>
    simp only [extractSeg, ht] at h
    by_cases he : t = ""
    · rw [if_pos he] at h
      injection h with h
      exact h ▸ hnil
    · rw [if_neg he] at h
      by_cases hsp : seg.speaker.getD "Unknown" = sp
      · refine foldlM_preserve (P := fun d3 => lookupD d3 sp [] = []) ?_ h ?_
        · intro d3 sentence d4 hmem hstep hp
          rw [if_neg (by have := hshort t ht hsp sentence hmem; omega)] at hstep
          injection hstep with hstep
          exact hstep ▸ hp
        · show lookupD (ensureKey d (seg.speaker.getD "Unknown")) sp [] = []
          rw [hsp, lookupD_ensureKey_nil]
          exact hnil
      · refine foldlM_preserve (P := fun d3 => lookupD d3 sp [] = []) ?_ h ?_
        · intro d3 sentence d4 _ hstep hp
          by_cases hw : 3 ≤ (pySplit sentence).length
          · rw [if_pos hw] at hstep
            cases hst : seg.start_time with
            | none => rw [hst] at hstep; exact nomatch hstep
            | some st =>
              cases het : seg.end_time with
              | none => rw [hst, het] at hstep; exact nomatch hstep
              | some et =>
                cases hsts : seg.start_timestamp with
                | none => rw [hst, het, hsts] at hstep; exact nomatch hstep
                | some sts =>
                  cases hets : seg.end_timestamp with
                  | none => rw [hst, het, hsts, hets] at hstep; exact nomatch hstep
                  | some ets =>
                    rw [hst, het, hsts, hets] at hstep
                    injection hstep with hstep
                    rw [← hstep, lookupD_appendAt_ne (fun hc => hsp hc.symm)]
                    exact hp
          · rw [if_neg hw] at hstep
            injection hstep with hstep
            exact hstep ▸ hp
        · show lookupD (ensureKey d (seg.speaker.getD "Unknown")) sp [] = []
          rw [lookupD_ensureKey_ne (fun hc => hsp hc.symm)]
          exact hnil

theorem extract_bucket {sentTok : String → List String} {tr : List Segment}
    {sm : SMap} {seg0 : Segment} {t : String}
    (hx : extract_statements_by_speaker sentTok tr = .ok sm)
    (hseg : seg0 ∈ tr) (ht : seg0.text = some t) (hne : t ≠ "") :
    hasKey sm (seg0.speaker.getD "Unknown") = true :=
  foldlM_establish (f := extractSeg sentTok) hseg
    (fun _ _ _ _ hstep hp => extractSeg_hasKey_mono hstep hp)
    (fun _ _ hstep => extractSeg_creates ht hne hstep) hx

theorem extract_nil {sentTok : String → List String} {tr : List Segment}
    {sm : SMap} {sp : String}
    (hx : extract_statements_by_speaker sentTok tr = .ok sm)
    (hshort : ∀ seg ∈ tr, ∀ t, seg.text = some t → seg.speaker.getD "Unknown" = sp →
      ∀ sent ∈ sentTok t, (pySplit sent).length < 3) :
    lookupD sm sp [] = [] :=
  foldlM_preserve (f := extractSeg sentTok)
    (fun _ seg _ hmem hstep hp => extractSeg_keeps_nil (hshort seg hmem) hstep hp) hx rfl



theorem buildIndex_presence {sentTok : String → List String}
    {ts : List (String × List Segment)} {idx : Index} {iid : String}
    {tr : List Segment} {sm : SMap} {sp : String}
    (hidx : buildIndex sentTok ts = .ok idx)
    (hmem : (iid, tr) ∈ ts)
    (hsm : extract_statements_by_speaker sentTok tr = .ok sm)
    (hk : hasKey sm sp = true) :
    ∃ m, (sp, m) ∈ idx ∧ hasKey m iid = true := by
  have hstep_pres : ∀ (acc : Index) (q : String × List Stmt) (iid2 : String),
      hasKey (lookupD acc sp []) iid = true →
      hasKey (lookupD (dictSet acc q.1 (dictSet (lookupD acc q.1 []) iid2 q.2)) sp []) iid
        = true := by
    intro acc q iid2 hP
    by_cases hq : q.1 = sp
    · subst hq
      rw [lookupD_dictSet_self, hasKey_dictSet, hP, Bool.or_true]
    · rw [lookupD_dictSet_ne (fun hc => hq hc.symm)]
      exact hP
  have hP : hasKey (lookupD idx sp []) iid = true := by
    refine foldlM_establish (P := fun acc => hasKey (lookupD acc sp []) iid = true)
      hmem ?_ ?_ hidx
    · intro acc p acc2 _ hstep hPacc
      cases hext : extract_statements_by_speaker sentTok p.2 with
      | error e =>
        simp only [hext] at hstep
        exact nomatch hstep
      | ok sbs =>
        simp only [hext] at hstep
        injection hstep with hstep
        subst hstep
        exact foldl_preserve (fun d q _ hPd => hstep_pres d q p.1 hPd) hPacc
    · intro acc acc2 hstep
      simp only [hsm] at hstep
      injection hstep with hstep
      subst hstep
      refine foldl_establish (@mem_of_hasKey _ sm sp [] hk)
        (fun d q _ hPd => hstep_pres d q iid hPd) ?_ acc
      intro d
      show hasKey (lookupD (dictSet d sp (dictSet (lookupD d sp []) iid (lookupD sm sp [])))
        sp []) iid = true
      rw [lookupD_dictSet_self, hasKey_dictSet]
      simp
  have hks : hasKey idx sp = true := by
    by_contra hc
    rw [lookupD_eq_dflt (d := idx) (by simpa using hc)] at hP
    simp [hasKey] at hP
  exact ⟨lookupD idx sp [], mem_of_hasKey hks, hP⟩



theorem detect_contradictions_pair {wordTok : String → List String} {lang : String}
    {u v : StampedStmt} {sim : Score} :
    detect_contradictions wordTok lang [(u, v, sim)] =
      (if hasNeg wordTok (negationWords lang) u.base.text ≠
          hasNeg wordTok (negationWords lang) v.base.text then
        [{ statement1 := u, statement2 := v, similarity := sim,
           contradiction_type := "negation" }]
      else []) := by
  simp only [detect_contradictions, List.filterMap]
  split <;> simp_all

theorem mem_processPair {cos : List String → Option (Nat → Nat → Score)}
    {wordTok : String → List String} {lang : String} {thr : Score}
    {stop : Finset String} {speaker id1 id2 : String} {s1 s2 : List Stmt}
    {x : Record × Ref × Ref}
    (hx : x ∈ processPair cos wordTok lang thr stop speaker id1 id2 s1 s2) :
    ∃ a b, a < s1.length ∧ b < s2.length ∧
      x.2.1 = (speaker, id1, a) ∧ x.2.2 = (speaker, id2, b) ∧
      x.1.speaker = speaker ∧ x.1.interview1 = id1 ∧ x.1.interview2 = id2 ∧
      x.1.statement1 = ⟨s1.getD a default, id1⟩ ∧
      x.1.statement2 = ⟨s2.getD b default, id2⟩ := by
  rw [processPair] at hx
  simp only [List.mem_flatMap] at hx
  obtain ⟨⟨i1, i2, sim⟩, hm, hx⟩ := hx
  obtain ⟨hij, hlen⟩ := mem_find_similar_bounds hm
  rw [List.length_append] at hlen
  simp only at hx
  by_cases hcond : (i1 < s1.length ∧ s1.length ≤ i2) ∨ (i2 < s1.length ∧ s1.length ≤ i1)
  · rw [if_pos hcond] at hx
    have hi1 : i1 < s1.length := by omega
    have hi2 : s1.length ≤ i2 := by omega
    simp only [if_neg (show ¬s1.length ≤ i1 by omega)] at hx
    have hc1 : (s1 ++ s2).getD i1 default = s1.getD i1 default :=
      List.getD_append _ _ _ _ hi1
    have hc2 : (s1 ++ s2).getD i2 default = s2.getD (i2 - s1.length) default :=
      List.getD_append_right _ _ _ _ hi2
    rw [hc1, hc2, detect_contradictions_pair] at hx
    refine ⟨i1, i2 - s1.length, hi1, by omega, ?_⟩
    by_cases hneg : hasNeg wordTok (negationWords lang)
        (s1.getD i1 default).text ≠ hasNeg wordTok (negationWords lang)
        (s2.getD (i2 - s1.length) default).text
    · rw [if_pos hneg] at hx
      simp only [List.map_cons, List.map_nil, if_neg (by simp : ¬([_] : List Contradiction) = []),
        List.mem_singleton] at hx
      subst hx
      simp
    · rw [if_neg hneg, if_pos rfl] at hx
      simp only [List.map_cons, List.map_nil, List.mem_singleton] at hx
      subst hx
      simp
  · rw [if_neg hcond] at hx
    simp at hx

theorem processPair_nil {cos : List String → Option (Nat → Nat → Score)}
    {wordTok : String → List String} {lang : String} {thr : Score}
    {stop : Finset String} {speaker id1 id2 : String} {s1 s2 : List Stmt}
    (h : s1 = [] ∨ s2 = []) :
    processPair cos wordTok lang thr stop speaker id1 id2 s1 s2 = [] := by
  rw [List.eq_nil_iff_forall_not_mem]
  intro x hx
  obtain ⟨a, b, ha, hb, -⟩ := mem_processPair hx
  rcases h with rfl | rfl
  · simp at ha
  · simp at hb



theorem mem_aggregateWithRefs {cos : List String → Option (Nat → Nat → Score)}
    {wordTok : String → List String} {lang : String} {thr : Score}
    {stop : Finset String} {idx : Index} {x : Record × Ref × Ref}
    (hx : x ∈ aggregateWithRefs cos wordTok lang thr stop idx) :
    ∃ p ∈ idx, 2 ≤ p.2.length ∧ ∃ i j, i < j ∧ j < p.2.length ∧
      x ∈ processPair cos wordTok lang thr stop p.1
        ((p.2.map Prod.fst).getD i "") ((p.2.map Prod.fst).getD j "")
        (lookupD p.2 ((p.2.map Prod.fst).getD i "") [])
        (lookupD p.2 ((p.2.map Prod.fst).getD j "") []) := by
  rw [aggregateWithRefs] at hx
  simp only [List.mem_flatMap] at hx
  obtain ⟨p, hp, hx⟩ := hx
  by_cases hlen : p.2.length < 2
  · rw [if_pos hlen] at hx
    simp at hx
  · rw [if_neg hlen] at hx
    simp only [List.mem_flatMap] at hx
    obtain ⟨⟨i, j⟩, hq, hx⟩ := hx
    rw [mem_pairIdx] at hq
    rw [List.length_map] at hq
    exact ⟨p, hp, by omega, i, j, hq.1, hq.2, hx⟩

theorem mem_dictSet {d : List (String × β)} {k : String} {v : β} {q : String × β}
    (h : q ∈ dictSet d k v) : q = (k, v) ∨ q ∈ d := by
  rw [dictSet] at h
  by_cases hk : hasKey d k = true
  · rw [if_pos hk] at h
    obtain ⟨p, hp, he⟩ := List.mem_map.1 h
    by_cases hpk : p.1 = k
    · rw [if_pos hpk] at he
      exact Or.inl he.symm
    · rw [if_neg hpk] at he
      exact Or.inr (he ▸ hp)
  · rw [if_neg hk] at h
    rcases List.mem_append.1 h with hm | hm
    · exact Or.inr hm
    · exact Or.inl (List.mem_singleton.1 hm)

theorem buildIndex_wf {sentTok : String → List String}
    {ts : List (String × List Segment)} {idx : Index}
    (hidx : buildIndex sentTok ts = .ok idx) : IndexWF idx := by
  refine foldlM_preserve (P := IndexWF) ?_ hidx ⟨List.nodup_nil, by simp⟩
  intro acc p acc2 _ hstep hwf
  cases hext : extract_statements_by_speaker sentTok p.2 with
  | error e =>
    simp only [hext] at hstep
    exact nomatch hstep
  | ok sbs =>
    simp only [hext] at hstep
    injection hstep with hstep
    subst hstep
    refine foldl_preserve (P := IndexWF) ?_ hwf
    intro d q _ hd
    constructor
    · exact nodup_keys_dictSet hd.1
    · intro r hr
      rcases mem_dictSet hr with rfl | hm
      · apply nodup_keys_dictSet
        by_cases hq : hasKey d q.1 = true
        · exact hd.2 _ (mem_of_hasKey hq)
        · rw [lookupD_eq_dflt (d := d) (by simpa using hq)]
          exact List.nodup_nil
      · exact hd.2 _ hm

theorem nodup_getD_ne {l : List String} (hn : l.Nodup) {i j : Nat}
    (hij : i < j) (hj : j < l.length) : l.getD i "" ≠ l.getD j "" := by
  intro hc
  rw [List.getD_eq_getElem?_getD, List.getD_eq_getElem?_getD,
    List.getElem?_eq_getElem (by omega), List.getElem?_eq_getElem hj] at hc
  simp only [Option.getD_some] at hc
  have := (hn.getElem_inj_iff).1 hc
  omega



theorem foldl_stampStore (trace : List Ref) (f : Ref → Option String) (r : Ref) :
    (trace.foldl stampStore f) r = if r ∈ trace then some r.2.1 else f r := by
  induction trace generalizing f with
  | nil => simp
  | cons a l ih =>
    rw [List.foldl_cons, ih]
    by_cases hm : r ∈ l
    · simp [hm]
    · by_cases ha : r = a
      · subst ha
        simp [hm, stampStore]
      · simp [hm, ha, stampStore]

/-- C2: once the aggregator creates a record for a qualifying matched pair,
nothing later in the run changes it: rebuilding each of its two statements
from the end-of-run state (the immutable statement bases of the index plus
the final `interview_id` store, i.e. all `stmt["interview_id"] = id` writes
of the whole run applied in order) gives back exactly the statements the
record was created with. -/
theorem C2_record_immutable (cos : List String → Option (Nat → Nat → Score))
    (sentTok wordTok : String → List String) (lang : String) (thr : Score)
    (stop : Finset String) (ts : List (String × List Segment)) (idx : Index)
    (hidx : buildIndex sentTok ts = .ok idx) (x : Record × Ref × Ref)
    (hx : x ∈ aggregateWithRefs cos wordTok lang thr stop idx) :
    stmtAt idx x.2.1 = some x.1.statement1.base ∧
    finalStore (runTrace (aggregateWithRefs cos wordTok lang thr stop idx)) x.2.1 =
      some x.1.statement1.interview_id ∧
    stmtAt idx x.2.2 = some x.1.statement2.base ∧
    finalStore (runTrace (aggregateWithRefs cos wordTok lang thr stop idx)) x.2.2 =
      some x.1.statement2.interview_id := by
  obtain ⟨p, hp, hlen2, i, j, hij, hj, hpp⟩ := mem_aggregateWithRefs hx
  obtain ⟨a, b, ha, hb, hr1, hr2, hsp, h1, h2, hs1, hs2⟩ := mem_processPair hpp
  have hwf := buildIndex_wf hidx
  have hlook : lookupD idx p.1 [] = p.2 := lookupD_of_mem_nodup hp hwf.1
  have htr1 : x.2.1 ∈ runTrace (aggregateWithRefs cos wordTok lang thr stop idx) :=
    List.mem_flatMap.2 ⟨x, hx, by simp⟩
  have htr2 : x.2.2 ∈ runTrace (aggregateWithRefs cos wordTok lang thr stop idx) :=
    List.mem_flatMap.2 ⟨x, hx, by simp⟩
  refine ⟨?_, ?_, ?_, ?_⟩
  · rw [hr1, stmtAt, hs1]
    show (lookupD (lookupD idx p.1 []) ((p.2.map Prod.fst).getD i "") [])[a]? = _
    rw [hlook]
    rw [List.getElem?_eq_getElem ha]
    have hgd : (lookupD p.2 ((p.2.map Prod.fst).getD i "") []).getD a default =
        (lookupD p.2 ((p.2.map Prod.fst).getD i "") [])[a] := by
      rw [List.getD_eq_getElem?_getD, List.getElem?_eq_getElem ha]
      rfl
    exact congrArg some hgd.symm
  · rw [finalStore, foldl_stampStore, if_pos htr1, hr1, hs1]
  · rw [hr2, stmtAt, hs2]
    show (lookupD (lookupD idx p.1 []) ((p.2.map Prod.fst).getD j "") [])[b]? = _
    rw [hlook]
    rw [List.getElem?_eq_getElem hb]
    have hgd : (lookupD p.2 ((p.2.map Prod.fst).getD j "") []).getD b default =
        (lookupD p.2 ((p.2.map Prod.fst).getD j "") [])[b] := by
      rw [List.getD_eq_getElem?_getD, List.getElem?_eq_getElem hb]
      rfl
    exact congrArg some hgd.symm
  · rw [finalStore, foldl_stampStore, if_pos htr2, hr2, hs2]

/-- C4: every record emitted by the aggregator pairs two different
interviews: its two interview ids differ, `statement_1` carries
`interview_id = interview1` and is drawn from that interview's statement
list (a combined-list index `< n1`), `statement_2` likewise from
`interview2` (combined-list index `>= n1`); matcher pairs with both
indices on the same side of the boundary contribute no record. -/
theorem C4_cross_interview (cos : List String → Option (Nat → Nat → Score))
    (sentTok wordTok : String → List String) (lang : String) (thr : Score)
    (stop : Finset String) (ts : List (String × List Segment)) (n : Nat)
    (cons sims : List Record)
    (hdet : detect_inconsistencies cos sentTok wordTok lang thr stop ts =
      .ok (.report n cons sims))
    (r : Record) (hr : r ∈ cons ++ sims) :
    r.interview1 ≠ r.interview2 ∧
    r.statement1.interview_id = r.interview1 ∧
    r.statement2.interview_id = r.interview2 ∧
    ∃ idx, buildIndex sentTok ts = .ok idx ∧
      ∃ interviews, (r.speaker, interviews) ∈ idx ∧
        (∃ a, a < (lookupD interviews r.interview1 []).length ∧
          r.statement1.base = (lookupD interviews r.interview1 []).getD a default) ∧
        (∃ b, b < (lookupD interviews r.interview2 []).length ∧
          r.statement2.base = (lookupD interviews r.interview2 []).getD b default) := by
  rw [detect_inconsistencies] at hdet
  by_cases hl : ts.length < 2
  · rw [if_pos hl] at hdet
    injection hdet with hdet
    exact nomatch hdet
  · rw [if_neg hl] at hdet
    cases hbi : buildIndex sentTok ts with
    | error e =>
      rw [hbi] at hdet
      exact nomatch hdet
    | ok idx =>
      rw [hbi] at hdet
      injection hdet with hdet
      injection hdet with hn hcons hsims
      have hrec : r ∈ (aggregateWithRefs cos wordTok lang thr stop idx).map Prod.fst := by
        rcases List.mem_append.1 hr with h | h
        · exact List.mem_of_mem_filter (hcons ▸ h)
        · exact List.mem_of_mem_filter (hsims ▸ h)
      obtain ⟨x, hx, hxr⟩ := List.mem_map.1 hrec
      obtain ⟨p, hp, hlen2, i, j, hij, hj, hpp⟩ := mem_aggregateWithRefs hx
      obtain ⟨a, b, ha, hb, hr1, hr2, hsp, h1, h2, hs1, hs2⟩ := mem_processPair hpp
      have hwf := buildIndex_wf hbi
      have hne : (p.2.map Prod.fst).getD i "" ≠ (p.2.map Prod.fst).getD j "" :=
        nodup_getD_ne (hwf.2 p hp) hij (by rw [List.length_map]; exact hj)
      subst hxr
      refine ⟨by rw [h1, h2]; exact hne,
        by rw [hs1, h1], by rw [hs2, h2], idx, rfl, p.2, by rw [hsp]; exact hp, ?_, ?_⟩
      · exact ⟨a, by rw [h1]; exact ha, by rw [hs1, h1]⟩
      · exact ⟨b, by rw [h2]; exact hb, by rw [hs2, h2]⟩

/-- C10: (1) the extractor creates a speaker's bucket for every segment
with non-empty text before the 3-word filter runs; (2) a speaker all of
whose sentences are shorter than 3 words is still mapped to an empty
statement list; (3) such a speaker still counts as present in that
interview for the aggregator's speaker-in-at-least-2-interviews test
(the interview id is a key of the speaker's entry in the index); (4) an
empty bucket on either side of an interview pair yields no records for
that pair. -/
theorem C10_empty_bucket :
    (∀ (sentTok : String → List String) (tr : List Segment) (sm : SMap)
      (seg0 : Segment) (t : String),
      extract_statements_by_speaker sentTok tr = .ok sm → seg0 ∈ tr →
      seg0.text = some t → t ≠ "" →
      hasKey sm (seg0.speaker.getD "Unknown") = true) ∧
    (∀ (sentTok : String → List String) (tr : List Segment) (sm : SMap) (sp : String),
      extract_statements_by_speaker sentTok tr = .ok sm →
      (∀ seg ∈ tr, ∀ t, seg.text = some t → seg.speaker.getD "Unknown" = sp →
        ∀ sent ∈ sentTok t, (pySplit sent).length < 3) →
      lookupD sm sp [] = []) ∧
    (∀ (sentTok : String → List String) (ts : List (String × List Segment))
      (idx : Index) (iid : String) (tr : List Segment) (sm : SMap) (sp : String),
      buildIndex sentTok ts = .ok idx → (iid, tr) ∈ ts →
      extract_statements_by_speaker sentTok tr = .ok sm → hasKey sm sp = true →
      ∃ m, (sp, m) ∈ idx ∧ hasKey m iid = true) ∧
    (∀ (cos : List String → Option (Nat → Nat → Score))
      (wordTok : String → List String) (lang : String) (thr : Score)
      (stop : Finset String) (speaker id1 id2 : String) (s1 s2 : List Stmt),
      s1 = [] ∨ s2 = [] →
      processPair cos wordTok lang thr stop speaker id1 id2 s1 s2 = []) :=
  ⟨fun _ _ _ _ _ hx hs ht hn => extract_bucket hx hs ht hn,
   fun _ _ _ _ hx hsh => extract_nil hx hsh,
   fun _ _ _ _ _ _ _ hidx hm hsm hk => buildIndex_presence hidx hm hsm hk,
   fun _ _ _ _ _ _ _ _ _ _ h => processPair_nil h⟩



theorem C2_record_immutable_wit :
    buildIndex sentIdent tsEx = .ok idxEx ∧
    xEx ∈ aggregateWithRefs cosOne pySplit "en" 0 ∅ idxEx ∧
    (stmtAt idxEx xEx.2.1 = some xEx.1.statement1.base ∧
     finalStore (runTrace (aggregateWithRefs cosOne pySplit "en" 0 ∅ idxEx)) xEx.2.1 =
       some xEx.1.statement1.interview_id ∧
     stmtAt idxEx xEx.2.2 = some xEx.1.statement2.base ∧
     finalStore (runTrace (aggregateWithRefs cosOne pySplit "en" 0 ∅ idxEx)) xEx.2.2 =
       some xEx.1.statement2.interview_id) :=
  ⟨by decide, by decide,
   C2_record_immutable cosOne sentIdent pySplit "en" 0 ∅ tsEx idxEx (by decide)
     xEx (by decide)⟩

theorem C4_cross_interview_wit :
    detect_inconsistencies cosOne sentIdent pySplit "en" 0 ∅ tsEx =
      .ok (.report 1 [recEx] []) ∧
    recEx ∈ [recEx] ++ [] ∧
    (recEx.interview1 ≠ recEx.interview2 ∧
     recEx.statement1.interview_id = recEx.interview1 ∧
     recEx.statement2.interview_id = recEx.interview2 ∧
     ∃ idx, buildIndex sentIdent tsEx = .ok idx ∧
       ∃ interviews, (recEx.speaker, interviews) ∈ idx ∧
         (∃ a, a < (lookupD interviews recEx.interview1 []).length ∧
           recEx.statement1.base = (lookupD interviews recEx.interview1 []).getD a default) ∧
         (∃ b, b < (lookupD interviews recEx.interview2 []).length ∧
           recEx.statement2.base = (lookupD interviews recEx.interview2 []).getD b default)) :=
  ⟨by decide, by decide,
   C4_cross_interview cosOne sentIdent pySplit "en" 0 ∅ tsEx 1 [recEx] []
     (by decide) recEx (by decide)⟩

theorem C10_empty_bucket_wit :
    hasKey [("S", ([] : List Stmt))] "S" = true ∧
    lookupD [("S", ([] : List Stmt))] "S" [] = [] ∧
    (∃ m, ("S", m) ∈ ([("S", [("i1", []), ("i2", [])])] : Index) ∧
      hasKey m "i1" = true) ∧
    processPair cosOne pySplit "en" 0 ∅ "S" "i1" "i2" [] [stEx1] = [] := by
  refine ⟨C10_empty_bucket.1 sentIdent [segShort] [("S", [])] segShort "a b"
      (by decide) (by decide) (by decide) (by decide),
    C10_empty_bucket.2.1 sentIdent [segShort] [("S", [])] "S" (by decide) ?_,
    C10_empty_bucket.2.2.1 sentIdent [("i1", [segShort]), ("i2", [segShort])]
      [("S", [("i1", []), ("i2", [])])] "i1" [segShort] [("S", [])] "S"
      (by decide) (by decide) (by decide) (by decide),
    C10_empty_bucket.2.2.2 cosOne pySplit "en" 0 ∅ "S" "i1" "i2" [] [stEx1]
      (Or.inl rfl)⟩
  intro seg hseg t ht hsp sent hsent
  have hseg2 : seg = segShort := by simpa using hseg
  subst hseg2
  have ht2 : t = "a b" := by
    have : some "a b" = some t := ht
    exact (Option.some.injEq _ _ ▸ this).symm
  subst ht2
  have hsent2 : sent = "a b" := by simpa [sentIdent] using hsent
  subst hsent2
  decide

end Detector
